import Mathlib

/-!
# Verification of the villagerhunt-websocket room-subscription and broadcast engine

Shallow embedding of `src/index.ts`: the connection registry (`subs`), the
room index (`rooms`), the subscribe/unsubscribe/cleanup operations, the
broadcast dispatcher (`broadcastToRoom`), the per-connection idle-timeout
check, and the WebSocket message handler.

Connections are identified by an opaque handle (`Conn := Nat`), standing for
the `ws : WebSocket` object the TypeScript code keys its maps on.  A
TypeScript `Map` lookup that may miss is `Option`; `Map.delete` is an update
to `none`.  `Set` becomes `Finset`.  The external transport state
(`ws.readyState === WebSocket.OPEN`) and whether `ws.send` throws are modelled
as boolean-valued environment functions passed to the dispatcher.
-/

namespace VillagerHunt

/-- Opaque identity of one live WebSocket connection (the `ws` map key). -/
abbrev Conn := Nat

/-- A room identifier (opaque string key). -/
abbrev Room := String

/-- The server's shared mutable state: the two global maps of `index.ts`.

* `subs` embeds `const subs = new Map<WebSocket, Subscriber>()` — a registered
  connection maps to the `rooms : Set<string>` field of its `Subscriber`
  record; an unregistered connection maps to `none`.
* `rooms` embeds `const rooms = new Map<string, Set<Subscriber>>()` — a room
  key present in the index maps to its member set; an absent key maps to
  `none`.  Members are identified by their connection handle, which is
  faithful because each live `ws` owns at most one `Subscriber` object. -/
structure ServerState where
  subs : Conn → Option (Finset Room)
  rooms : Room → Option (Finset Conn)

/-- The state at process start: both maps empty. -/
def initState : ServerState := ⟨fun _ => none, fun _ => none⟩

/-- Embedding of `subscribe(ws, room)` (index.ts lines 77–87): register the connection with
a fresh empty membership set if unknown; no-op if already subscribed to
`room`; otherwise add `room` to the membership set, `ensureRoom`, and add the
subscriber to the room's member set. -/
def subscribe (st : ServerState) (c : Conn) (room : Room) : ServerState :=
  let ms := (st.subs c).getD ∅
  if room ∈ ms then st
  else
    { subs := Function.update st.subs c (some (insert room ms)),
      rooms := Function.update st.rooms room
        (some (insert c ((st.rooms room).getD ∅))) }

/-- Embedding of `unsubscribe(ws, room)` (index.ts lines 89–99): no-op if the connection is
unregistered or not subscribed to `room`; otherwise remove `room` from the
membership set and remove the subscriber from the room's member set, deleting
the room entry entirely when the member set becomes empty. -/
def unsubscribe (st : ServerState) (c : Conn) (room : Room) : ServerState :=
  match st.subs c with
  | none => st
  | some ms =>
    if room ∉ ms then st
    else
      { subs := Function.update st.subs c (some (ms.erase room)),
        rooms :=
          match st.rooms room with
          | none => st.rooms
          | some s =>
            if s.erase c = ∅ then Function.update st.rooms room none
            else Function.update st.rooms room (some (s.erase c)) }

/-- Embedding of `cleanup(ws)` (index.ts lines 101–112): no-op if the connection is
unregistered; otherwise remove the subscriber from the member set of every
room in its membership set (deleting rooms that become empty) and delete the
registry entry. -/
def cleanup (st : ServerState) (c : Conn) : ServerState :=
  match st.subs c with
  | none => st
  | some ms =>
    { subs := Function.update st.subs c none,
      rooms := fun r =>
        if r ∈ ms then
          match st.rooms r with
          | none => none
          | some s => if s.erase c = ∅ then none else some (s.erase c)
        else st.rooms r }

/-- One state-mutating operation of the subscription manager. -/
inductive Op where
  | sub (c : Conn) (r : Room)
  | unsub (c : Conn) (r : Room)
  | clean (c : Conn)

/-- Apply one operation to the server state. -/
def applyOp (st : ServerState) : Op → ServerState
  | .sub c r => subscribe st c r
  | .unsub c r => unsubscribe st c r
  | .clean c => cleanup st c

/-- States reachable from process start by any sequence of subscribe,
unsubscribe and cleanup operations. -/
inductive Reachable : ServerState → Prop where
  | init : Reachable initState
  | step {st : ServerState} (op : Op) : Reachable st → Reachable (applyOp st op)

/-- Embedding of `broadcastToRoom(room, message)` (index.ts lines 118–134), delivery count.
The loop iterates over the room's member set; for each member whose socket is
open (`openFn`) it calls `ws.send` inside a `try`, and increments `count` only
when the send does not throw (`sendOk`).  A missing room returns 0.  The loop
body is order-independent, so the iteration is embedded as a `Finset.sum`. -/
def broadcastCount (st : ServerState) (openFn sendOk : Conn → Bool)
    (room : Room) : Nat :=
  match st.rooms room with
  | none => 0
  | some s => s.sum (fun c => if openFn c then (if sendOk c then 1 else 0) else 0)

/-- The members of `room` on which `broadcastToRoom` actually calls
`ws.send` (those in the `OPEN` ready state); each receives the one serialized
`data` string.  Empty when the room is absent from the index. -/
def roomRecipients (st : ServerState) (openFn : Conn → Bool)
    (room : Room) : Finset Conn :=
  match st.rooms room with
  | none => ∅
  | some s => s.filter (fun c => openFn c = true)

/-- A JavaScript value, as far as the protocol needs: the possible results of
`JSON.parse` plus `undefined` (the result of reading a missing field). -/
inductive JSVal where
  | undefined
  | null
  | bool (b : Bool)
  | num (n : Int)
  | str (s : String)
  | obj (fields : List (String × JSVal))

/-- Field lookup in a JS object literal: first binding of the key wins. -/
def lookupField : List (String × JSVal) → String → JSVal
  | [], _ => .undefined
  | (k', v) :: rest, k => if k' = k then v else lookupField rest k

/-- Property read `v.f`; `undefined` on non-objects and missing keys
(the code only reads properties where this cannot throw). -/
def getField (v : JSVal) (k : String) : JSVal :=
  match v with
  | .obj fields => lookupField fields k
  | _ => .undefined

/-- JavaScript truthiness of the representable values (`undefined`, `null`,
`false`, `0`, `""` are falsy; every other representable value is truthy). -/
def truthy : JSVal → Bool
  | .undefined => false
  | .null => false
  | .bool b => b
  | .num n => n != 0
  | .str s => s != ""
  | .obj _ => true

/-- The JavaScript `a || b` operator on values. -/
def jsOr (a b : JSVal) : JSVal := if truthy a then a else b

/-- JavaScript strict equality `v === s` against a string literal. -/
def strictEqStr (v : JSVal) (s : String) : Bool :=
  match v with
  | .str t => t = s
  | _ => false

/-- Whether `typeof v === "string"`. -/
def isString : JSVal → Bool
  | .str _ => true
  | _ => false

/-- The update event built by the WebSocket `publish` case (index.ts lines
201–207): `payload` and `metadata` are passed through `|| null`. -/
def mkWsUpdate (m : JSVal) (now : Int) : JSVal :=
  .obj [("type", .str "update"), ("room", getField m "room"),
        ("payload", jsOr (getField m "payload") .null),
        ("metadata", jsOr (getField m "metadata") .null),
        ("ts", .num now)]

/-- The update event built by the HTTP `/broadcast` handler (index.ts lines
46–52): `payload` is forwarded unchanged, `metadata` goes through `|| null`. -/
def mkHttpUpdate (body : JSVal) (now : Int) : JSVal :=
  .obj [("type", .str "update"), ("room", getField body "room"),
        ("payload", getField body "payload"),
        ("metadata", jsOr (getField body "metadata") .null),
        ("ts", .num now)]

/-- An inbound frame after the `JSON.parse` attempt of index.ts line 167:
`none` when the raw text is not valid JSON. -/
abbrev ParsedFrame := Option JSVal

/-- A frame is malformed when it is not JSON, or its parse result fails the
guard `if (!m || typeof m.type !== "string") return` (index.ts line 172):
falsy, or with a missing or non-string `type` field. -/
def malformedMsg : ParsedFrame → Bool
  | none => true
  | some m => !(truthy m) || !(isString (getField m "type"))

/-- Result of running the `ws.on("message")` handler on one inbound frame:
the server state after the handler, the connection's `lastMessage` variable
after the handler, the JSON replies sent back over this socket, and the
`broadcastToRoom` calls performed (room and update event). -/
structure HandleResult where
  st : ServerState
  lastMessage : Nat
  replies : List JSVal
  broadcasts : List (Room × JSVal)

/-- The `ws.on("message")` handler (index.ts lines 163–217).  `apiKey` is the
`API_KEY` environment value (`""` when unset); `openFn`/`sendOk` model the
transport state seen by `broadcastToRoom`; `lm` is the connection's
`lastMessage` value before the frame and `now` is `Date.now()` during the
handler.  The handler first sets `lastMessage = Date.now()`, then parses, then
dispatches on `type`. -/
def handleMessage (apiKey : String) (openFn sendOk : Conn → Bool)
    (st : ServerState) (c : Conn) (lm now : Nat) (raw : ParsedFrame) :
    HandleResult :=
  let _ := lm
  match raw with
  | none => ⟨st, now, [], []⟩
  | some m =>
    if !(truthy m) || !(isString (getField m "type")) then ⟨st, now, [], []⟩
    else
      match getField m "type" with
      | .str "subscribe" =>
        match getField m "room" with
        | .str room =>
          ⟨subscribe st c room, now,
           [.obj [("type", .str "subscribed"), ("room", .str room)]], []⟩
        | _ => ⟨st, now, [], []⟩
      | .str "unsubscribe" =>
        match getField m "room" with
        | .str room =>
          ⟨unsubscribe st c room, now,
           [.obj [("type", .str "unsubscribed"), ("room", .str room)]], []⟩
        | _ => ⟨st, now, [], []⟩
      | .str "ping" =>
        ⟨st, now, [.obj [("type", .str "pong"), ("ts", .num now)]], []⟩
      | .str "publish" =>
        match getField m "room" with
        | .str room =>
          if apiKey ≠ "" && !(strictEqStr (getField m "apiKey") apiKey) then
            ⟨st, now,
             [.obj [("type", .str "err"), ("message", .str "invalid apiKey")]],
             []⟩
          else
            ⟨st, now,
             [.obj [("type", .str "published"), ("room", .str room),
                    ("sentTo", .num (broadcastCount st openFn sendOk room))]],
             [(room, mkWsUpdate m now)]⟩
        | _ => ⟨st, now, [], []⟩
      | _ => ⟨st, now, [], []⟩

/-- The Liveness Monitor's per-tick test for one connection (index.ts line
157): `Date.now() - lastMessage > 60000`. -/
def idleTimedOut (now lm : Nat) : Bool := 60000 < now - lm

/-- The `ws.on("close")` handler (index.ts lines 219–223): runs `cleanup` —
the single cleanup path shared by client closes, errors and forced closes. -/
def onClose (st : ServerState) (c : Conn) : ServerState := cleanup st c

/-- One Liveness Monitor tick observing connection `c` (index.ts lines
156–161): when the idle check fires, `ws.close()` is called, and the resulting
close event runs the `onClose` handler; otherwise nothing happens. -/
def tickOnConn (st : ServerState) (c : Conn) (now lm : Nat) : ServerState :=
  if idleTimedOut now lm then onClose st c else st

/-- Every room key present in the Room Index has a non-empty member set. -/
def RoomsNonempty (st : ServerState) : Prop :=
  ∀ r s, st.rooms r = some s → s.Nonempty

/-- Every room in a registered connection's membership set exists in the Room
Index with that connection among its members. -/
def Forward (st : ServerState) : Prop :=
  ∀ c ms, st.subs c = some ms → ∀ r ∈ ms, ∃ s, st.rooms r = some s ∧ c ∈ s

/-- Every member of every indexed room is a registered connection with that
room in its membership set. -/
def Backward (st : ServerState) : Prop :=
  ∀ r s, st.rooms r = some s → ∀ c ∈ s, ∃ ms, st.subs c = some ms ∧ r ∈ ms

/-- The global registry invariant: non-empty rooms plus the two-way
registry/index cross-reference. -/
def Inv (st : ServerState) : Prop :=
  RoomsNonempty st ∧ Forward st ∧ Backward st

/-- A concrete state used to evaluate the theorems: connections 0, 1, 2 are
subscribed to room "x" and connection 3 to room "y". -/
def exampleState : ServerState :=
  ⟨fun c => if c = 0 ∨ c = 1 ∨ c = 2 then some {"x"}
            else if c = 3 then some {"y"} else none,
   fun r => if r = "x" then some {0, 1, 2}
            else if r = "y" then some {3} else none⟩

/-! ## Invariant preservation -/

theorem inv_initState : Inv initState := by
  refine ⟨fun r s h => ?_, fun c ms h => ?_, fun r s h => ?_⟩ <;>
    simp [initState] at h

theorem inv_subscribe {st : ServerState} (c : Conn) (room : Room)
    (h : Inv st) : Inv (subscribe st c room) := by
  obtain ⟨hne, hfwd, hbwd⟩ := h
  by_cases hmem : room ∈ (st.subs c).getD ∅
  · simpa [subscribe, hmem] using ⟨hne, hfwd, hbwd⟩
  · simp only [subscribe, hmem, if_false, if_neg]
    refine ⟨?_, ?_, ?_⟩
    · intro r s hr
      dsimp only at hr
      rcases eq_or_ne r room with rfl | hrne
      · rw [Function.update_same] at hr
        obtain rfl : insert c ((st.rooms r).getD ∅) = s := by injection hr
        exact ⟨c, Finset.mem_insert_self c _⟩
      · rw [Function.update_noteq hrne] at hr
        exact hne r s hr
    · intro c' ms' hc' r hr
      dsimp only at hc' ⊢
      rcases eq_or_ne c' c with rfl | hcne
      · rw [Function.update_same] at hc'
        obtain rfl : insert room ((st.subs c').getD ∅) = ms' := by
          injection hc'
        rcases Finset.mem_insert.mp hr with rfl | hr'
        · exact ⟨_, Function.update_same _ _ _,
            Finset.mem_insert_self c' _⟩
        · have hrne : r ≠ room := fun h => hmem (h ▸ hr')
          cases hsc : st.subs c' with
          | none => simp [hsc] at hr'
          | some ms =>
            obtain ⟨s, hs, hcs⟩ := hfwd c' ms hsc r (by simpa [hsc] using hr')
            exact ⟨s, by rw [Function.update_noteq hrne]; exact hs, hcs⟩
      · rw [Function.update_noteq hcne] at hc'
        obtain ⟨s, hs, hcs⟩ := hfwd c' ms' hc' r hr
        rcases eq_or_ne r room with rfl | hrne
        · exact ⟨_, Function.update_same _ _ _, by
            simp [hs, Finset.mem_insert, hcs]⟩
        · exact ⟨s, by rw [Function.update_noteq hrne]; exact hs, hcs⟩
    · intro r s' hr c' hc'
      dsimp only at hr ⊢
      rcases eq_or_ne r room with rfl | hrne
      · rw [Function.update_same] at hr
        obtain rfl : insert c ((st.rooms r).getD ∅) = s' := by injection hr
        rcases eq_or_ne c' c with rfl | hcc
        · exact ⟨_, Function.update_same _ _ _, Finset.mem_insert_self r _⟩
        · rcases Finset.mem_insert.mp hc' with rfl | hc''
          · exact absurd rfl hcc
          · cases hrr : st.rooms r with
            | none => simp [hrr] at hc''
            | some s0 =>
              obtain ⟨ms'', hsub'', hmem''⟩ :=
                hbwd r s0 hrr c' (by simpa [hrr] using hc'')
              exact ⟨ms'', by rw [Function.update_noteq hcc]; exact hsub'',
                hmem''⟩
      · rw [Function.update_noteq hrne] at hr
        obtain ⟨ms'', hsub'', hmem''⟩ := hbwd r s' hr c' hc'
        rcases eq_or_ne c' c with rfl | hcc
        · refine ⟨_, Function.update_same _ _ _, ?_⟩
          simp [hsub'', Finset.mem_insert, hmem'']
        · exact ⟨ms'', by rw [Function.update_noteq hcc]; exact hsub'',
            hmem''⟩

theorem inv_unsubscribe {st : ServerState} (c : Conn) (room : Room)
    (h : Inv st) : Inv (unsubscribe st c room) := by
  obtain ⟨hne, hfwd, hbwd⟩ := h
  cases hsc : st.subs c with
  | none => simpa [unsubscribe, hsc] using ⟨hne, hfwd, hbwd⟩
  | some ms =>
    by_cases hmem : room ∈ ms
    · simp only [unsubscribe, hsc, hmem, not_true, if_false, if_neg,
        not_false_iff]
      refine ⟨?_, ?_, ?_⟩
      · intro r s hr
        dsimp only at hr
        cases hrr : st.rooms room with
        | none =>
          rw [hrr] at hr
          exact hne r s hr
        | some s0 =>
          rw [hrr] at hr
          dsimp only at hr
          by_cases he : s0.erase c = ∅
          · rw [if_pos he] at hr
            rcases eq_or_ne r room with rfl | hrne
            · rw [Function.update_same] at hr; cases hr
            · rw [Function.update_noteq hrne] at hr; exact hne r s hr
          · rw [if_neg he] at hr
            rcases eq_or_ne r room with rfl | hrne
            · rw [Function.update_same] at hr
              obtain rfl : s0.erase c = s := by injection hr
              exact Finset.nonempty_iff_ne_empty.mpr he
            · rw [Function.update_noteq hrne] at hr; exact hne r s hr
      · intro c' ms' hc' r hr
        dsimp only at hc' ⊢
        rcases eq_or_ne c' c with rfl | hcne
        · rw [Function.update_same] at hc'
          obtain rfl : ms.erase room = ms' := by injection hc'
          obtain ⟨hrne, hrm⟩ := Finset.mem_erase.mp hr
          obtain ⟨s, hs, hcs⟩ := hfwd c' ms hsc r hrm
          refine ⟨s, ?_, hcs⟩
          cases hrr : st.rooms room with
          | none => exact hs
          | some s0 =>
            dsimp only
            by_cases he : s0.erase c' = ∅
            · rw [if_pos he, Function.update_noteq hrne]; exact hs
            · rw [if_neg he, Function.update_noteq hrne]; exact hs
        · rw [Function.update_noteq hcne] at hc'
          obtain ⟨s, hs, hcs⟩ := hfwd c' ms' hc' r hr
          rcases eq_or_ne r room with rfl | hrne
          · rw [hs]
            dsimp only
            by_cases he : s.erase c = ∅
            · exact absurd (Finset.mem_erase.mpr ⟨hcne, hcs⟩)
                (by simp [he])
            · exact ⟨s.erase c, by rw [if_neg he, Function.update_same],
                Finset.mem_erase.mpr ⟨hcne, hcs⟩⟩
          · refine ⟨s, ?_, hcs⟩
            cases hrr : st.rooms room with
            | none => exact hs
            | some s0 =>
              dsimp only
              by_cases he : s0.erase c = ∅
              · rw [if_pos he, Function.update_noteq hrne]; exact hs
              · rw [if_neg he, Function.update_noteq hrne]; exact hs
      · intro r s' hr c' hc'
        dsimp only at hr ⊢
        cases hrr : st.rooms room with
        | none =>
          rw [hrr] at hr
          dsimp only at hr
          have hrne : r ≠ room := fun h => by
            rw [h, hrr] at hr; cases hr
          obtain ⟨ms₁, hsub₁, hmem₁⟩ := hbwd r s' hr c' hc'
          rcases eq_or_ne c' c with rfl | hcc
          · rw [hsc] at hsub₁
            obtain rfl : ms = ms₁ := by injection hsub₁
            exact ⟨ms.erase room, Function.update_same _ _ _,
              Finset.mem_erase.mpr ⟨hrne, hmem₁⟩⟩
          · exact ⟨ms₁, by rw [Function.update_noteq hcc]; exact hsub₁,
              hmem₁⟩
        | some s0 =>
          rw [hrr] at hr
          dsimp only at hr
          by_cases he : s0.erase c = ∅
          · rw [if_pos he] at hr
            have hrne : r ≠ room := by
              intro h
              rw [h, Function.update_same] at hr; cases hr
            rw [Function.update_noteq hrne] at hr
            obtain ⟨ms₁, hsub₁, hmem₁⟩ := hbwd r s' hr c' hc'
            rcases eq_or_ne c' c with rfl | hcc
            · rw [hsc] at hsub₁
              obtain rfl : ms = ms₁ := by injection hsub₁
              exact ⟨ms.erase room, Function.update_same _ _ _,
                Finset.mem_erase.mpr ⟨hrne, hmem₁⟩⟩
            · exact ⟨ms₁, by rw [Function.update_noteq hcc]; exact hsub₁,
                hmem₁⟩
          · rw [if_neg he] at hr
            rcases eq_or_ne r room with rfl | hrne
            · rw [Function.update_same] at hr
              obtain rfl : s0.erase c = s' := by injection hr
              obtain ⟨hcc, hc0⟩ := Finset.mem_erase.mp hc'
              obtain ⟨ms₁, hsub₁, hmem₁⟩ := hbwd r s0 hrr c' hc0
              exact ⟨ms₁, by rw [Function.update_noteq hcc]; exact hsub₁,
                hmem₁⟩
            · rw [Function.update_noteq hrne] at hr
              obtain ⟨ms₁, hsub₁, hmem₁⟩ := hbwd r s' hr c' hc'
              rcases eq_or_ne c' c with rfl | hcc
              · rw [hsc] at hsub₁
                obtain rfl : ms = ms₁ := by injection hsub₁
                exact ⟨ms.erase room, Function.update_same _ _ _,
                  Finset.mem_erase.mpr ⟨hrne, hmem₁⟩⟩
              · exact ⟨ms₁, by rw [Function.update_noteq hcc]; exact hsub₁,
                  hmem₁⟩
    · simpa [unsubscribe, hsc, hmem] using ⟨hne, hfwd, hbwd⟩

theorem inv_cleanup {st : ServerState} (c : Conn) (h : Inv st) :
    Inv (cleanup st c) := by
  obtain ⟨hne, hfwd, hbwd⟩ := h
  cases hsc : st.subs c with
  | none => simpa [cleanup, hsc] using ⟨hne, hfwd, hbwd⟩
  | some ms =>
    simp only [cleanup, hsc]
    refine ⟨?_, ?_, ?_⟩
    · intro r s hr
      dsimp only at hr
      by_cases hrm : r ∈ ms
      · rw [if_pos hrm] at hr
        cases hrr : st.rooms r with
        | none => rw [hrr] at hr; cases hr
        | some s0 =>
          rw [hrr] at hr
          dsimp only at hr
          by_cases he : s0.erase c = ∅
          · rw [if_pos he] at hr; cases hr
          · rw [if_neg he] at hr
            obtain rfl : s0.erase c = s := by injection hr
            exact Finset.nonempty_iff_ne_empty.mpr he
      · rw [if_neg hrm] at hr
        exact hne r s hr
    · intro c' ms' hc' r hr
      dsimp only at hc' ⊢
      have hcc : c' ≠ c := by
        intro h
        rw [h, Function.update_same] at hc'; cases hc'
      rw [Function.update_noteq hcc] at hc'
      obtain ⟨s, hs, hcs⟩ := hfwd c' ms' hc' r hr
      by_cases hrm : r ∈ ms
      · rw [if_pos hrm, hs]
        dsimp only
        by_cases he : s.erase c = ∅
        · exact absurd (Finset.mem_erase.mpr ⟨hcc, hcs⟩) (by simp [he])
        · exact ⟨s.erase c, by rw [if_neg he],
            Finset.mem_erase.mpr ⟨hcc, hcs⟩⟩
      · rw [if_neg hrm]
        exact ⟨s, hs, hcs⟩
    · intro r s' hr c' hc'
      dsimp only at hr ⊢
      by_cases hrm : r ∈ ms
      · rw [if_pos hrm] at hr
        cases hrr : st.rooms r with
        | none => rw [hrr] at hr; cases hr
        | some s0 =>
          rw [hrr] at hr
          dsimp only at hr
          by_cases he : s0.erase c = ∅
          · rw [if_pos he] at hr; cases hr
          · rw [if_neg he] at hr
            obtain rfl : s0.erase c = s' := by injection hr
            obtain ⟨hcc, hc0⟩ := Finset.mem_erase.mp hc'
            obtain ⟨ms₁, hsub₁, hmem₁⟩ := hbwd r s0 hrr c' hc0
            exact ⟨ms₁, by rw [Function.update_noteq hcc]; exact hsub₁,
              hmem₁⟩
      · rw [if_neg hrm] at hr
        obtain ⟨ms₁, hsub₁, hmem₁⟩ := hbwd r s' hr c' hc'
        have hcc : c' ≠ c := by
          intro h
          rw [h, hsc] at hsub₁
          obtain rfl : ms = ms₁ := by injection hsub₁
          exact hrm hmem₁
        exact ⟨ms₁, by rw [Function.update_noteq hcc]; exact hsub₁, hmem₁⟩

/-- Every operation of the subscription manager preserves the invariant. -/
theorem inv_applyOp {st : ServerState} (op : Op) (h : Inv st) :
    Inv (applyOp st op) := by
  cases op with
  | sub c r => exact inv_subscribe c r h
  | unsub c r => exact inv_unsubscribe c r h
  | clean c => exact inv_cleanup c h

/-- Every reachable state satisfies the invariant. -/
theorem reachable_inv {st : ServerState} (h : Reachable st) : Inv st := by
  induction h with
  | init => exact inv_initState
  | step op _ ih => exact inv_applyOp op ih

/-! ## Broadcast counting -/

theorem sendLoop_eq_card (o k : Conn → Bool) (s : Finset Conn) :
    s.sum (fun c => if o c then (if k c then 1 else 0) else 0)
      = (s.filter (fun c => o c = true ∧ k c = true)).card := by
  rw [Finset.card_filter]
  refine Finset.sum_congr rfl (fun c _ => ?_)
  by_cases ho : o c <;> by_cases hk : k c <;> simp [ho, hk]

theorem broadcastCount_eq_card (st : ServerState) (o k : Conn → Bool)
    (room : Room) :
    broadcastCount st o k room
      = (((st.rooms room).getD ∅).filter
          (fun c => o c = true ∧ k c = true)).card := by
  unfold broadcastCount
  cases h : st.rooms room <;> simp [sendLoop_eq_card]

/-! ## Basic facts about subscribe and unsubscribe -/

theorem subscribe_of_mem {st : ServerState} {c : Conn} {room : Room}
    (h : room ∈ (st.subs c).getD ∅) : subscribe st c room = st := by
  simp [subscribe, h]

theorem subscribe_mem_self (st : ServerState) (c : Conn) (room : Room) :
    room ∈ (((subscribe st c room).subs c).getD ∅) := by
  by_cases hmem : room ∈ (st.subs c).getD ∅
  · simp [subscribe, hmem]
  · simp [subscribe, hmem, Function.update_same]

theorem unsubscribe_of_not_mem {st : ServerState} {c : Conn} {room : Room}
    (h : room ∉ (st.subs c).getD ∅) : unsubscribe st c room = st := by
  cases hsc : st.subs c with
  | none => simp [unsubscribe, hsc]
  | some ms =>
    rw [hsc] at h
    simp only [Option.getD_some] at h
    simp [unsubscribe, hsc, h]

theorem unsubscribe_not_mem_self (st : ServerState) (c : Conn)
    (room : Room) :
    room ∉ (((unsubscribe st c room).subs c).getD ∅) := by
  cases hsc : st.subs c with
  | none => simp [unsubscribe, hsc]
  | some ms =>
    by_cases hmem : room ∈ ms
    · simp only [unsubscribe, hsc, hmem, not_true, if_neg, if_false,
        not_false_iff]
      simp [Function.update_same]
    · simp [unsubscribe, hsc, hmem]

theorem cleanup_of_unregistered {st : ServerState} {c : Conn}
    (h : st.subs c = none) : cleanup st c = st := by
  simp [cleanup, h]

/-! ## Claim theorems -/

/-- C4: for every state, connection and room, `subscribe` twice yields exactly
the same registry and room-index state as `subscribe` once, and `unsubscribe`
twice yields the same state as `unsubscribe` once. -/
theorem subscribe_unsubscribe_idempotent (st : ServerState) (c : Conn)
    (room : Room) :
    subscribe (subscribe st c room) c room = subscribe st c room ∧
    unsubscribe (unsubscribe st c room) c room = unsubscribe st c room :=
  ⟨subscribe_of_mem (subscribe_mem_self st c room),
   unsubscribe_of_not_mem (unsubscribe_not_mem_self st c room)⟩

/-- C5: if no connection other than `c` is a member of `room` (its member set,
when the room is indexed at all, is contained in `{c}`), then `subscribe`
followed by `unsubscribe` leaves `room` absent from the Room Index. -/
theorem subscribe_unsubscribe_removes_room (st : ServerState) (c : Conn)
    (room : Room)
    (h : ∀ s, st.rooms room = some s → s ⊆ {c}) :
    (unsubscribe (subscribe st c room) c room).rooms room = none := by
  by_cases hmem : room ∈ (st.subs c).getD ∅
  · rw [subscribe_of_mem hmem]
    cases hsc : st.subs c with
    | none => simp [hsc] at hmem
    | some ms =>
      rw [hsc] at hmem
      simp only [Option.getD_some] at hmem
      cases hrr : st.rooms room with
      | none => simp [unsubscribe, hsc, hmem, hrr]
      | some s0 =>
        have hs0 : s0.erase c = ∅ := by
          rcases Finset.subset_singleton_iff.mp (h s0 hrr) with rfl | rfl
          · simp
          · simp
        simp [unsubscribe, hsc, hmem, hrr, hs0, Function.update_same]
  · have h1 : (subscribe st c room).subs c
        = some (insert room ((st.subs c).getD ∅)) := by
      simp [subscribe, hmem, Function.update_same]
    have h2 : (subscribe st c room).rooms room
        = some (insert c ((st.rooms room).getD ∅)) := by
      simp [subscribe, hmem, Function.update_same]
    have hs0 : (insert c ((st.rooms room).getD ∅)).erase c = ∅ := by
      cases hrr : st.rooms room with
      | none => simp
      | some s0 =>
        rcases Finset.subset_singleton_iff.mp (h s0 hrr) with rfl | rfl
        · simp
        · simp
    simp [unsubscribe, h1, h2, hs0, Finset.mem_insert_self,
      Function.update_same]

/-- C5 witness: instantiated at the empty initial state, connection 0 and
room "x". -/
theorem subscribe_unsubscribe_removes_room_witness :
    (∀ s, initState.rooms "x" = some s → s ⊆ ({0} : Finset Conn)) ∧
    (unsubscribe (subscribe initState 0 "x") 0 "x").rooms "x" = none := by
  refine ⟨fun s h => by simp [initState] at h, ?_⟩
  exact subscribe_unsubscribe_removes_room initState 0 "x"
    (fun s h => by simp [initState] at h)

/-- C2: in every reachable state every room key present in the Room Index has
a non-empty member set, and a publish to a room absent from the index returns
0.  (`broadcastToRoom` only reads the index — its embedding returns a bare
count — so the absent room's entry is not created and the index is left
unchanged by construction.) -/
theorem room_index_nonempty_and_publish_empty (st : ServerState)
    (room : Room) (o k : Conn → Bool) (h : Reachable st) :
    (∀ r s, st.rooms r = some s → s.Nonempty) ∧
    (st.rooms room = none → broadcastCount st o k room = 0) := by
  refine ⟨(reachable_inv h).1, fun hr => ?_⟩
  unfold broadcastCount
  rw [hr]

/-- C2 witness: instantiated at the reachable state obtained by subscribing
connection 0 to room "x", publishing to the unindexed room "y". -/
theorem room_index_nonempty_and_publish_empty_witness :
    Reachable (applyOp initState (Op.sub 0 "x")) ∧
    ((∀ r s, (applyOp initState (Op.sub 0 "x")).rooms r = some s →
        s.Nonempty) ∧
     ((applyOp initState (Op.sub 0 "x")).rooms "y" = none →
        broadcastCount (applyOp initState (Op.sub 0 "x"))
          (fun _ => true) (fun _ => true) "y" = 0)) :=
  ⟨Reachable.step (Op.sub 0 "x") Reachable.init,
   room_index_nonempty_and_publish_empty _ "y" (fun _ => true)
     (fun _ => true) (Reachable.step (Op.sub 0 "x") Reachable.init)⟩

/-- C3: in every reachable state, every room in a registered connection's
membership set is indexed with that connection among its members
(`Forward`), and every member of every indexed room is a registered
connection carrying that room in its membership set (`Backward`). -/
theorem registry_room_index_sync (st : ServerState) (h : Reachable st) :
    Forward st ∧ Backward st :=
  ⟨(reachable_inv h).2.1, (reachable_inv h).2.2⟩

/-- C3 witness: instantiated at the reachable state obtained by subscribing
connection 0 to room "x". -/
theorem registry_room_index_sync_witness :
    Reachable (applyOp initState (Op.sub 0 "x")) ∧
    (Forward (applyOp initState (Op.sub 0 "x")) ∧
     Backward (applyOp initState (Op.sub 0 "x"))) :=
  ⟨Reachable.step (Op.sub 0 "x") Reachable.init,
   registry_room_index_sync _ (Reachable.step (Op.sub 0 "x") Reachable.init)⟩

/-- C6: in every reachable state, after `cleanup(ws)` the connection is a
member of zero rooms in the Room Index, is no longer present in the
Connection Registry, and a second `cleanup(ws)` is a no-op. -/
theorem cleanup_completeness (st : ServerState) (c : Conn)
    (h : Reachable st) :
    (∀ r s, (cleanup st c).rooms r = some s → c ∉ s) ∧
    (cleanup st c).subs c = none ∧
    cleanup (cleanup st c) c = cleanup st c := by
  obtain ⟨hne, hfwd, hbwd⟩ := reachable_inv h
  cases hsc : st.subs c with
  | none =>
    have hcl : cleanup st c = st := by simp [cleanup, hsc]
    rw [hcl]
    refine ⟨fun r s hr hcs => ?_, hsc, hcl⟩
    obtain ⟨ms₁, hsub₁, _⟩ := hbwd r s hr c hcs
    rw [hsc] at hsub₁; cases hsub₁
  | some ms =>
    have h2 : (cleanup st c).subs c = none := by
      simp [cleanup, hsc, Function.update_same]
    refine ⟨?_, h2, cleanup_of_unregistered h2⟩
    intro r s hr hcs
    simp only [cleanup, hsc] at hr
    by_cases hrm : r ∈ ms
    · rw [if_pos hrm] at hr
      cases hrr : st.rooms r with
      | none => rw [hrr] at hr; cases hr
      | some s0 =>
        rw [hrr] at hr
        dsimp only at hr
        by_cases he : s0.erase c = ∅
        · rw [if_pos he] at hr; cases hr
        · rw [if_neg he] at hr
          obtain rfl : s0.erase c = s := by injection hr
          exact (Finset.mem_erase.mp hcs).1 rfl
    · rw [if_neg hrm] at hr
      obtain ⟨ms₁, hsub₁, hmem₁⟩ := hbwd r s hr c hcs
      rw [hsc] at hsub₁
      obtain rfl : ms = ms₁ := by injection hsub₁
      exact hrm hmem₁

/-- C6 witness: instantiated at the reachable state obtained by subscribing
connection 0 to room "x", cleaning up connection 0. -/
theorem cleanup_completeness_witness :
    Reachable (applyOp initState (Op.sub 0 "x")) ∧
    ((∀ r s, (cleanup (applyOp initState (Op.sub 0 "x")) 0).rooms r = some s →
        0 ∉ s) ∧
     (cleanup (applyOp initState (Op.sub 0 "x")) 0).subs 0 = none ∧
     cleanup (cleanup (applyOp initState (Op.sub 0 "x")) 0) 0
       = cleanup (applyOp initState (Op.sub 0 "x")) 0) :=
  ⟨Reachable.step (Op.sub 0 "x") Reachable.init,
   cleanup_completeness _ 0 (Reachable.step (Op.sub 0 "x") Reachable.init)⟩

/-- C1: when room `x`'s member set is exactly the three distinct open
connections `a`, `b`, `c` (all of whose sends succeed) and the distinct
connection `d` is subscribed to room `y`, publishing to `x` sends the
serialized update to exactly `a`, `b`, `c`, returns 3, and sends nothing
to `d`. -/
theorem fanout_exact (st : ServerState) (o k : Conn → Bool)
    (a b c d : Conn) (x y : Room) (sy : Finset Conn)
    (hx : st.rooms x = some {a, b, c})
    (hab : a ≠ b) (hac : a ≠ c) (hbc : b ≠ c)
    (hd : d ∉ ({a, b, c} : Finset Conn))
    (_hy : st.rooms y = some sy) (_hdy : d ∈ sy)
    (ho : o a = true ∧ o b = true ∧ o c = true ∧ o d = true)
    (hk : k a = true ∧ k b = true ∧ k c = true) :
    broadcastCount st o k x = 3 ∧
    roomRecipients st o x = {a, b, c} ∧
    d ∉ roomRecipients st o x := by
  obtain ⟨hoa, hob, hoc, hod⟩ := ho
  obtain ⟨hka, hkb, hkc⟩ := hk
  have hmem3 : ∀ z ∈ ({a, b, c} : Finset Conn),
      o z = true ∧ k z = true := by
    intro z hz
    rcases Finset.mem_insert.mp hz with rfl | hz
    · exact ⟨hoa, hka⟩
    rcases Finset.mem_insert.mp hz with rfl | hz
    · exact ⟨hob, hkb⟩
    · rw [Finset.mem_singleton.mp hz]
      exact ⟨hoc, hkc⟩
  have hrec : roomRecipients st o x = {a, b, c} := by
    unfold roomRecipients
    rw [hx]
    exact Finset.filter_true_of_mem (fun z hz => (hmem3 z hz).1)
  refine ⟨?_, hrec, fun hdx => hd (hrec ▸ hdx)⟩
  rw [broadcastCount_eq_card, hx]
  simp only [Option.getD_some]
  rw [Finset.filter_true_of_mem hmem3,
      Finset.card_insert_of_not_mem (by simp [hab, hac]),
      Finset.card_insert_of_not_mem (by simp [hbc]),
      Finset.card_singleton]

/-- C1 witness: instantiated at `exampleState` with connections 0, 1, 2 in
room "x" and connection 3 in room "y", all transports open and succeeding. -/
theorem fanout_exact_witness :
    exampleState.rooms "x" = some {0, 1, 2} ∧
    exampleState.rooms "y" = some {3} ∧
    (3 : Conn) ∉ ({0, 1, 2} : Finset Conn) ∧
    (broadcastCount exampleState (fun _ => true) (fun _ => true) "x" = 3 ∧
     roomRecipients exampleState (fun _ => true) "x" = {0, 1, 2} ∧
     3 ∉ roomRecipients exampleState (fun _ => true) "x") := by
  refine ⟨by decide, by decide, by decide, ?_⟩
  exact fanout_exact exampleState (fun _ => true) (fun _ => true)
    0 1 2 3 "x" "y" {3} (by decide) (by decide) (by decide) (by decide)
    (by decide) (by decide) (by decide) ⟨rfl, rfl, rfl, rfl⟩ ⟨rfl, rfl, rfl⟩

/-- C7 counterexample: at a state whose room "x" holds the three open members
0, 1, 2, with every `ws.send` throwing, three sends are attempted to open
connections yet the code returns 0 — the returned value is not the count of
attempted sends. -/
theorem broadcast_count_attempted_counterexample :
    broadcastCount exampleState (fun _ => true) (fun _ => false) "x" = 0 ∧
    (roomRecipients exampleState (fun _ => true) "x").card = 3 ∧
    broadcastCount exampleState (fun _ => true) (fun _ => false) "x" ≠
      (roomRecipients exampleState (fun _ => true) "x").card := by
  refine ⟨by decide, by decide, by decide⟩

/-- C7 (amended): `broadcastToRoom` returns the number of open members whose
send did not throw — the successful subset of the attempted sends — and hence
at most the number of attempted sends; a per-recipient failure only removes
that recipient from the count and the publish still completes.  (The loop
never touches `subs`/`rooms`, so the embedding returns a bare count: no
connection is removed by the publish path, and no retry occurs since each
member is visited once.) -/
theorem broadcast_counts_successful_sends (st : ServerState)
    (o k : Conn → Bool) (room : Room) :
    broadcastCount st o k room
      = ((roomRecipients st o room).filter (fun c => k c = true)).card ∧
    broadcastCount st o k room ≤ (roomRecipients st o room).card := by
  have h1 : broadcastCount st o k room
      = ((roomRecipients st o room).filter (fun c => k c = true)).card := by
    rw [broadcastCount_eq_card]
    unfold roomRecipients
    cases h : st.rooms room
    · simp
    · simp [Finset.filter_filter]
  exact ⟨h1, h1 ▸ Finset.card_filter_le _ _⟩

/-- C8 counterexample: the handler executes `lastMessage = Date.now()` before
`JSON.parse`, so a malformed frame (here: unparseable text) does reset the
connection's idle timer — `lastMessage` moves from 0 to the current time 5. -/
theorem malformed_resets_idle_timer :
    malformedMsg none = true ∧
    (handleMessage "" (fun _ => true) (fun _ => true) initState 0 0 5
        none).lastMessage = 5 ∧
    (handleMessage "" (fun _ => true) (fun _ => true) initState 0 0 5
        none).lastMessage ≠ 0 :=
  ⟨rfl, rfl, by decide⟩

/-- C8 (amended): a malformed inbound frame (non-JSON, or JSON that is falsy
or has a missing or non-string `type`) produces no reply, performs no
broadcast, and mutates no registry or room-index state — but it does reset
the connection's idle timer: `lastMessage` becomes the current time. -/
theorem malformed_silently_ignored (apiKey : String)
    (o k : Conn → Bool) (st : ServerState) (c : Conn) (lm now : Nat)
    (raw : ParsedFrame) (h : malformedMsg raw = true) :
    (handleMessage apiKey o k st c lm now raw).st = st ∧
    (handleMessage apiKey o k st c lm now raw).replies = [] ∧
    (handleMessage apiKey o k st c lm now raw).broadcasts = [] ∧
    (handleMessage apiKey o k st c lm now raw).lastMessage = now := by
  cases raw with
  | none => exact ⟨rfl, rfl, rfl, rfl⟩
  | some m =>
    simp only [malformedMsg] at h
    simp [handleMessage, h]

/-- C8 witness: the amended claim at the unparseable frame `"not json"`
arriving at time 7 on a connection whose previous `lastMessage` was 3. -/
theorem malformed_silently_ignored_witness :
    malformedMsg none = true ∧
    ((handleMessage "" (fun _ => true) (fun _ => true) initState 0 3 7
        none).st = initState ∧
     (handleMessage "" (fun _ => true) (fun _ => true) initState 0 3 7
        none).replies = [] ∧
     (handleMessage "" (fun _ => true) (fun _ => true) initState 0 3 7
        none).broadcasts = [] ∧
     (handleMessage "" (fun _ => true) (fun _ => true) initState 0 3 7
        none).lastMessage = 7) :=
  ⟨rfl, malformed_silently_ignored "" (fun _ => true) (fun _ => true)
    initState 0 3 7 none rfl⟩

/-- C9: in every reachable state, when a connection `d` has been idle beyond
the 60-second threshold, the Liveness Monitor tick force-closes it, running
exactly the close handler's cleanup path; afterwards a publish to a room `d`
belonged to excludes `d` and returns a count one lower than a publish before
the eviction (assuming `d`'s transport was open and its send succeeded). -/
theorem idle_eviction (st : ServerState) (d : Conn) (room : Room)
    (s : Finset Conn) (o k : Conn → Bool) (now lm : Nat)
    (hreach : Reachable st)
    (hidle : idleTimedOut now lm = true)
    (hs : st.rooms room = some s) (hd : d ∈ s)
    (ho : o d = true) (hk : k d = true) :
    tickOnConn st d now lm = onClose st d ∧
    broadcastCount (tickOnConn st d now lm) o k room + 1
      = broadcastCount st o k room ∧
    d ∉ roomRecipients (tickOnConn st d now lm) o room := by
  obtain ⟨hne, hfwd, hbwd⟩ := reachable_inv hreach
  have htick : tickOnConn st d now lm = cleanup st d := by
    simp [tickOnConn, onClose, hidle]
  refine ⟨by simp [tickOnConn, hidle], ?_, ?_⟩ <;> rw [htick]
  · obtain ⟨ms, hsub, hrm⟩ := hbwd room s hs d hd
    have hrooms : (cleanup st d).rooms room
        = if s.erase d = ∅ then none else some (s.erase d) := by
      simp only [cleanup, hsub]
      rw [if_pos hrm, hs]
    have hPd : d ∈ s.filter (fun z => o z = true ∧ k z = true) :=
      Finset.mem_filter.mpr ⟨hd, ho, hk⟩
    have hcard : 1 ≤ (s.filter (fun z => o z = true ∧ k z = true)).card :=
      Finset.card_pos.mpr ⟨d, hPd⟩
    by_cases he : s.erase d = ∅
    · have hsd : s = {d} := by
        rcases (Finset.erase_eq_empty_iff s d).mp he with rfl | rfl
        · cases Finset.not_mem_empty d hd
        · rfl
      have hafter : broadcastCount (cleanup st d) o k room = 0 := by
        unfold broadcastCount
        rw [hrooms, if_pos he]
      have hbefore : broadcastCount st o k room = 1 := by
        rw [broadcastCount_eq_card, hs]
        simp only [Option.getD_some, hsd]
        rw [Finset.filter_singleton, if_pos ⟨ho, hk⟩]
        exact Finset.card_singleton d
      rw [hafter, hbefore]
    · have hafter : broadcastCount (cleanup st d) o k room
          = ((s.erase d).filter (fun z => o z = true ∧ k z = true)).card := by
        rw [broadcastCount_eq_card, hrooms, if_neg he]
        simp only [Option.getD_some]
      rw [hafter, Finset.filter_erase, Finset.card_erase_of_mem hPd,
          broadcastCount_eq_card, hs]
      simp only [Option.getD_some]
      exact Nat.sub_add_cancel hcard
  · obtain ⟨ms, hsub, hrm⟩ := hbwd room s hs d hd
    have hrooms : (cleanup st d).rooms room
        = if s.erase d = ∅ then none else some (s.erase d) := by
      simp only [cleanup, hsub]
      rw [if_pos hrm, hs]
    unfold roomRecipients
    rw [hrooms]
    by_cases he : s.erase d = ∅
    · rw [if_pos he]
      simp
    · rw [if_neg he]
      simp [Finset.mem_filter]

/-- C9 witness: connections 0 and 1 subscribed to room "x"; connection 0 has
been idle since time 0 and the tick fires at time 70000. -/
theorem idle_eviction_witness :
    Reachable (applyOp (applyOp initState (Op.sub 0 "x")) (Op.sub 1 "x")) ∧
    idleTimedOut 70000 0 = true ∧
    (applyOp (applyOp initState (Op.sub 0 "x")) (Op.sub 1 "x")).rooms "x"
      = some {1, 0} ∧
    (tickOnConn (applyOp (applyOp initState (Op.sub 0 "x")) (Op.sub 1 "x"))
        0 70000 0
      = onClose (applyOp (applyOp initState (Op.sub 0 "x")) (Op.sub 1 "x")) 0 ∧
     broadcastCount
        (tickOnConn (applyOp (applyOp initState (Op.sub 0 "x")) (Op.sub 1 "x"))
          0 70000 0) (fun _ => true) (fun _ => true) "x" + 1
      = broadcastCount (applyOp (applyOp initState (Op.sub 0 "x")) (Op.sub 1 "x"))
          (fun _ => true) (fun _ => true) "x" ∧
     0 ∉ roomRecipients
        (tickOnConn (applyOp (applyOp initState (Op.sub 0 "x")) (Op.sub 1 "x"))
          0 70000 0) (fun _ => true) "x") := by
  refine ⟨Reachable.step (Op.sub 1 "x") (Reachable.step (Op.sub 0 "x")
    Reachable.init), by decide, by rfl, ?_⟩
  exact idle_eviction _ 0 "x" {1, 0} (fun _ => true) (fun _ => true) 70000 0
    (Reachable.step (Op.sub 1 "x") (Reachable.step (Op.sub 0 "x")
      Reachable.init)) (by decide) (by rfl) (by decide) rfl rfl

/-- C10: a WebSocket `publish` whose `payload` is falsy (absent, `null`, `0`,
`""` or `false`) broadcasts an update event with `payload: null` (coerced by
`m.payload || null`), whereas the HTTP `/broadcast` path forwards the body's
`payload` into the update event unchanged. -/
theorem publish_payload_coercion (m body : JSVal) (now : Int) (p : JSVal)
    (hm : getField m "payload" = p)
    (hp : p = .undefined ∨ p = .null ∨ p = .num 0 ∨ p = .str "" ∨
      p = .bool false) :
    getField (mkWsUpdate m now) "payload" = .null ∧
    getField (mkHttpUpdate body now) "payload" = getField body "payload" := by
  constructor
  · have h1 : getField (mkWsUpdate m now) "payload"
        = jsOr (getField m "payload") .null := rfl
    rw [h1, hm]
    rcases hp with rfl | rfl | rfl | rfl | rfl <;> rfl
  · rfl

/-- C10 witness: a WS publish message and an HTTP body both carrying
`payload: 0`; the WS update event carries `null`, the HTTP update event
carries `0`. -/
theorem publish_payload_coercion_witness :
    getField (.obj [("type", .str "publish"), ("room", .str "x"),
      ("payload", .num 0)]) "payload" = JSVal.num 0 ∧
    ((JSVal.num 0 = .undefined ∨ JSVal.num 0 = .null ∨ JSVal.num 0 = .num 0 ∨
      JSVal.num 0 = .str "" ∨ JSVal.num 0 = .bool false)) ∧
    (getField (mkWsUpdate (.obj [("type", .str "publish"),
      ("room", .str "x"), ("payload", .num 0)]) 42) "payload" = .null ∧
     getField (mkHttpUpdate (.obj [("room", .str "x"),
      ("payload", .num 0)]) 42) "payload"
      = getField (.obj [("room", .str "x"), ("payload", .num 0)])
          "payload") :=
  ⟨rfl, Or.inr (Or.inr (Or.inl rfl)),
   publish_payload_coercion
     (.obj [("type", .str "publish"), ("room", .str "x"),
       ("payload", .num 0)])
     (.obj [("room", .str "x"), ("payload", .num 0)]) 42 (.num 0) rfl
     (Or.inr (Or.inr (Or.inl rfl)))⟩

end VillagerHunt
